import Mathlib

/-!
Verification of the NexusWallet signing backend core: the cipher module
(`crypto_utils.py`), the keystore/signer (`keyManager.py`) and the
user-operation builder (`account.py`).  Bytes are modelled as natural
numbers below 256, byte strings as `List Nat`.  External library
primitives (PBKDF2, AES-CFB, HMAC-SHA256, secp256k1 signing) are modelled
as parameters constrained by their documented behaviour; base64 is
modelled concretely, matching Python's `base64.b64encode`/`b64decode`.
-/

namespace NexusWallet

/-- Predicate: a list is a byte string (every entry below 256). -/
def ByteList (bs : List Nat) : Prop := ∀ b ∈ bs, b < 256

instance : DecidablePred ByteList := fun bs =>
  inferInstanceAs (Decidable (∀ b ∈ bs, b < 256))

/-- Base64 alphabet of RFC 4648: maps a 6-bit group to its ASCII code. -/
def sextetToChar (n : Nat) : Nat :=
  if n < 26 then 65 + n
  else if n < 52 then 97 + (n - 26)
  else if n < 62 then 48 + (n - 52)
  else if n = 62 then 43
  else 47

/-- Inverse alphabet lookup: ASCII code back to its 6-bit group, `none`
for a character outside the base64 alphabet. -/
def charToSextet (c : Nat) : Option Nat :=
  if 65 ≤ c ∧ c ≤ 90 then some (c - 65)
  else if 97 ≤ c ∧ c ≤ 122 then some (c - 97 + 26)
  else if 48 ≤ c ∧ c ≤ 57 then some (c - 48 + 52)
  else if c = 43 then some 62
  else if c = 47 then some 63
  else none

/-- Model of Python `base64.b64encode`: bytes to base64 ASCII text with
`=` (ASCII 61) padding. -/
def b64encode : List Nat → List Nat
  | [] => []
  | [b0] => [sextetToChar (b0 / 4), sextetToChar (b0 % 4 * 16), 61, 61]
  | [b0, b1] => [sextetToChar (b0 / 4), sextetToChar (b0 % 4 * 16 + b1 / 16),
      sextetToChar (b1 % 16 * 4), 61]
  | b0 :: b1 :: b2 :: rest =>
      sextetToChar (b0 / 4) :: sextetToChar (b0 % 4 * 16 + b1 / 16) ::
      sextetToChar (b1 % 16 * 4 + b2 / 64) :: sextetToChar (b2 % 64) :: b64encode rest

/-- Decode a cleaned base64 character stream four characters at a time.
Padding (`=`, ASCII 61) is accepted only in the final quantum; the unused
low bits of the final data character are discarded, exactly as Python's
decoder does. -/
def decodeQuanta : List Nat → Option (List Nat)
  | [] => some []
  | c1 :: c2 :: c3 :: c4 :: rest =>
    match charToSextet c1, charToSextet c2 with
    | some s1, some s2 =>
      if c3 = 61 then
        if c4 = 61 ∧ rest = [] then some [s1 * 4 + s2 / 16] else none
      else
        match charToSextet c3 with
        | some s3 =>
          if c4 = 61 then
            if rest = [] then some [s1 * 4 + s2 / 16, s2 % 16 * 16 + s3 / 4] else none
          else
            match charToSextet c4 with
            | some s4 =>
              (decodeQuanta rest).map
                (fun tl => (s1 * 4 + s2 / 16) :: (s2 % 16 * 16 + s3 / 4) :: (s3 % 4 * 64 + s4) :: tl)
            | none => none
        | none => none
    | _, _ => none
  | _ => none

/-- Characters Python's default (non-validating) decoder keeps: the
base64 alphabet and the padding character. -/
def isB64Char (c : Nat) : Bool := (charToSextet c).isSome || c = 61

/-- Model of Python `base64.b64decode` with its default `validate=False`:
characters outside the alphabet are discarded, then the remaining length
must be a multiple of four (else `binascii.Error` is raised, modelled as
`none`). -/
def b64decode (s : List Nat) : Option (List Nat) :=
  let cleaned := s.filter isB64Char
  if cleaned.length % 4 = 0 then decodeQuanta cleaned else none

theorem charToSextet_sextetToChar : ∀ n, n < 64 → charToSextet (sextetToChar n) = some n := by
  decide

theorem isB64Char_sextetToChar (n : Nat) : isB64Char (sextetToChar n) = true := by
  rcases Nat.lt_or_ge n 64 with h | h
  · simp [isB64Char, charToSextet_sextetToChar n h]
  · have : sextetToChar n = 47 := by
      unfold sextetToChar
      split_ifs <;> omega
    simp [isB64Char, this, charToSextet]

theorem sextetToChar_ne_61 (n : Nat) : sextetToChar n ≠ 61 := by
  unfold sextetToChar
  split_ifs <;> omega

theorem isB64Char_61 : isB64Char 61 = true := by decide

theorem filter_b64encode (bs : List Nat) :
    (b64encode bs).filter isB64Char = b64encode bs := by
  induction bs using b64encode.induct with
  | case1 => rfl
  | case2 b0 => simp [b64encode, List.filter, isB64Char_sextetToChar, isB64Char_61]
  | case3 b0 b1 => simp [b64encode, List.filter, isB64Char_sextetToChar, isB64Char_61]
  | case4 b0 b1 b2 rest ih =>
    simp [b64encode, List.filter, isB64Char_sextetToChar, isB64Char_61, ih]

theorem length_b64encode_mod (bs : List Nat) : (b64encode bs).length % 4 = 0 := by
  induction bs using b64encode.induct with
  | case1 => rfl
  | case2 b0 => simp [b64encode]
  | case3 b0 b1 => simp [b64encode]
  | case4 b0 b1 b2 rest ih =>
    simp only [b64encode, List.length_cons]
    omega

theorem decodeQuanta_b64encode (bs : List Nat) (h : ByteList bs) :
    decodeQuanta (b64encode bs) = some bs := by
  induction bs using b64encode.induct with
  | case1 => rfl
  | case2 b0 =>
    have hb0 : b0 < 256 := h b0 (by simp)
    have h1 : charToSextet (sextetToChar (b0 / 4)) = some (b0 / 4) :=
      charToSextet_sextetToChar _ (by omega)
    have h2 : charToSextet (sextetToChar (b0 % 4 * 16)) = some (b0 % 4 * 16) :=
      charToSextet_sextetToChar _ (by omega)
    simp [b64encode, decodeQuanta, h1, h2]
    omega
  | case3 b0 b1 =>
    have hb0 : b0 < 256 := h b0 (by simp)
    have hb1 : b1 < 256 := h b1 (by simp)
    have h1 : charToSextet (sextetToChar (b0 / 4)) = some (b0 / 4) :=
      charToSextet_sextetToChar _ (by omega)
    have h2 : charToSextet (sextetToChar (b0 % 4 * 16 + b1 / 16)) = some (b0 % 4 * 16 + b1 / 16) :=
      charToSextet_sextetToChar _ (by omega)
    have h3 : charToSextet (sextetToChar (b1 % 16 * 4)) = some (b1 % 16 * 4) :=
      charToSextet_sextetToChar _ (by omega)
    simp [b64encode, decodeQuanta, h1, h2, h3, sextetToChar_ne_61]
    omega
  | case4 b0 b1 b2 rest ih =>
    have hb0 : b0 < 256 := h b0 (by simp)
    have hb1 : b1 < 256 := h b1 (by simp)
    have hb2 : b2 < 256 := h b2 (by simp)
    have hrest : ByteList rest := fun b hb => h b (by simp [hb])
    have h1 : charToSextet (sextetToChar (b0 / 4)) = some (b0 / 4) :=
      charToSextet_sextetToChar _ (by omega)
    have h2 : charToSextet (sextetToChar (b0 % 4 * 16 + b1 / 16)) = some (b0 % 4 * 16 + b1 / 16) :=
      charToSextet_sextetToChar _ (by omega)
    have h3 : charToSextet (sextetToChar (b1 % 16 * 4 + b2 / 64)) = some (b1 % 16 * 4 + b2 / 64) :=
      charToSextet_sextetToChar _ (by omega)
    have h4 : charToSextet (sextetToChar (b2 % 64)) = some (b2 % 64) :=
      charToSextet_sextetToChar _ (by omega)
    simp [b64encode, decodeQuanta, h1, h2, h3, h4, sextetToChar_ne_61, ih hrest]
    omega

/-- Base64 round-trip: decoding an encoded byte string recovers it. -/
theorem b64decode_b64encode (bs : List Nat) (h : ByteList bs) :
    b64decode (b64encode bs) = some bs := by
  unfold b64decode
  rw [filter_b64encode, if_pos (length_b64encode_mod bs), decodeQuanta_b64encode bs h]

theorem byteList_append {a b : List Nat} (ha : ByteList a) (hb : ByteList b) :
    ByteList (a ++ b) := by
  intro x hx
  rcases List.mem_append.mp hx with h | h
  · exact ha x h
  · exact hb x h

/-- External cryptographic primitives called by `crypto_utils.py`:
PBKDF2-HMAC-SHA256 key derivation, AES in CFB mode, and HMAC-SHA256.
They live in the `cryptography`/`hmac` libraries, outside this
repository, and are modelled as parameters. -/
structure CryptoPrims where
  kdf : List Nat → List Nat → Nat → List Nat
  aesCfbEnc : List Nat → List Nat → List Nat → List Nat
  aesCfbDec : List Nat → List Nat → List Nat → List Nat
  hmacSha256 : List Nat → List Nat → List Nat

/-- Documented behaviour of the library primitives: CFB is a stream mode
(ciphertext as long as the plaintext, byte-valued, decryption inverts
encryption under the same key and IV) and HMAC-SHA256 produces 32
byte-valued bytes. -/
structure CryptoLaws (P : CryptoPrims) : Prop where
  encLen : ∀ k iv d, (P.aesCfbEnc k iv d).length = d.length
  encBytes : ∀ k iv d, ByteList (P.aesCfbEnc k iv d)
  decEnc : ∀ k iv d, ByteList d → P.aesCfbDec k iv (P.aesCfbEnc k iv d) = d
  macLen : ∀ k m, (P.hmacSha256 k m).length = 32
  macBytes : ∀ k m, ByteList (P.hmacSha256 k m)

/-- Failure classes of the cipher module, named after the spec taxonomy:
`formatError` is the plain `CryptoError` raised on a base64-decode
failure or a short blob, `integrityError` is `HMACVerificationFailed`,
`wrongKeyError` is `WrongPassword`. -/
inductive CryptoErr where
  | formatError
  | integrityError
  | wrongKeyError
  deriving DecidableEq, Repr

/-- Model of `aes_encrypt` (crypto_utils.py lines 35-52).  The random
`salt` and `iv` drawn from `os.urandom(16)` are explicit arguments. -/
def aes_encrypt (P : CryptoPrims) (salt iv data password : List Nat) : List Nat :=
  let key := P.kdf password salt 32
  let hmac_key := P.kdf password salt 32
  let ciphertext := P.aesCfbEnc key iv data
  let mac := P.hmacSha256 hmac_key (salt ++ iv ++ ciphertext)
  b64encode (salt ++ iv ++ ciphertext ++ mac)

/-- Model of `aes_decrypt` (crypto_utils.py lines 55-85).  A base64
failure or a decoded length below 64 is the plain `CryptoError`
(`formatError`); a MAC mismatch is `HMACVerificationFailed`
(`integrityError`).  CFB decryption of byte strings itself cannot fail,
so the `WrongPassword` catch-all at the end of the source is
unreachable here. -/
def aes_decrypt (P : CryptoPrims) (enc_data password : List Nat) : Except CryptoErr (List Nat) :=
  match b64decode enc_data with
  | none => .error .formatError
  | some raw =>
    if raw.length < 16 + 16 + 32 then .error .formatError
    else
      let salt := raw.take 16
      let iv := (raw.drop 16).take 16
      let ciphertext := (raw.drop 32).take (raw.length - 64)
      let mac := raw.drop (raw.length - 32)
      let key := P.kdf password salt 32
      let hmac_key := P.kdf password salt 32
      let real_mac := P.hmacSha256 hmac_key (salt ++ iv ++ ciphertext)
      if mac = real_mac then .ok (P.aesCfbDec key iv ciphertext)
      else .error .integrityError

/-- Field extraction used by `aes_decrypt`: slicing
`salt(16) ++ iv(16) ++ ct(n) ++ mac(32)` with the source's index
arithmetic recovers the four fields. -/
theorem blob_split (salt iv ct mac : List Nat)
    (hs : salt.length = 16) (hiv : iv.length = 16) (hm : mac.length = 32) :
    (salt ++ iv ++ ct ++ mac).take 16 = salt ∧
    ((salt ++ iv ++ ct ++ mac).drop 16).take 16 = iv ∧
    ((salt ++ iv ++ ct ++ mac).drop 32).take ((salt ++ iv ++ ct ++ mac).length - 64) = ct ∧
    (salt ++ iv ++ ct ++ mac).drop ((salt ++ iv ++ ct ++ mac).length - 32) = mac := by
  have hL : (salt ++ iv ++ ct ++ mac).length = 64 + ct.length := by
    simp [hs, hiv, hm]
    omega
  have ha1 : salt ++ iv ++ ct ++ mac = salt ++ (iv ++ (ct ++ mac)) := by simp
  have ha2 : salt ++ iv ++ ct ++ mac = (salt ++ iv) ++ (ct ++ mac) := by simp
  refine ⟨?_, ?_, ?_, ?_⟩
  · rw [ha1, List.take_left' hs]
  · rw [ha1, List.drop_left' hs, List.take_left' hiv]
  · rw [hL]
    have e64 : 64 + ct.length - 64 = ct.length := by omega
    rw [e64, ha2, List.drop_left' (by simp [hs, hiv]), List.take_left]
  · rw [hL]
    have e32 : 64 + ct.length - 32 = (salt ++ iv ++ ct).length := by
      simp [hs, hiv]
      omega
    rw [e32, List.drop_left]

/-- C1.  Cipher round-trip: decrypting the blob produced by
`aes_encrypt(m, p)` with the same password `p` succeeds and returns
exactly `m`, for every password, every byte-string plaintext, and every
choice of the random 16-byte salt and IV. -/
theorem cipher_roundtrip (P : CryptoPrims) (hL : CryptoLaws P)
    (salt iv m p : List Nat)
    (hs : salt.length = 16) (hsB : ByteList salt)
    (hiv : iv.length = 16) (hivB : ByteList iv)
    (hm : ByteList m) :
    aes_decrypt P (aes_encrypt P salt iv m p) p = .ok m := by
  have hraw : ByteList (salt ++ iv ++ P.aesCfbEnc (P.kdf p salt 32) iv m ++
      P.hmacSha256 (P.kdf p salt 32)
        (salt ++ iv ++ P.aesCfbEnc (P.kdf p salt 32) iv m)) :=
    byteList_append (byteList_append (byteList_append hsB hivB)
      (hL.encBytes _ _ _)) (hL.macBytes _ _)
  have hlen : (salt ++ iv ++ P.aesCfbEnc (P.kdf p salt 32) iv m ++
      P.hmacSha256 (P.kdf p salt 32)
        (salt ++ iv ++ P.aesCfbEnc (P.kdf p salt 32) iv m)).length =
      64 + m.length := by
    simp [hs, hiv, hL.encLen, hL.macLen]
    omega
  obtain ⟨e1, e2, e3, e4⟩ := blob_split salt iv
    (P.aesCfbEnc (P.kdf p salt 32) iv m)
    (P.hmacSha256 (P.kdf p salt 32) (salt ++ iv ++ P.aesCfbEnc (P.kdf p salt 32) iv m))
    hs hiv (hL.macLen _ _)
  unfold aes_encrypt aes_decrypt
  rw [b64decode_b64encode _ hraw]
  simp only []
  rw [if_neg (by omega), e1, e2, e3, e4, if_pos rfl, hL.decEnc _ _ _ hm]

theorem byteList_set {l : List Nat} (hl : ByteList l) {j v : Nat} (hv : v < 256) :
    ByteList (l.set j v) := by
  intro b hb
  rcases List.mem_or_eq_of_mem_set hb with h | h
  · exact hl b h
  · omega

theorem set_ne_of_getD_ne (l : List Nat) (j v : Nat) (hj : j < l.length)
    (hv : v ≠ l.getD j 0) : l.set j v ≠ l := by
  intro he
  apply hv
  have h1 : (l.set j v)[j]? = l[j]? := by rw [he]
  rw [List.getElem?_set_self hj, List.getElem?_eq_getElem hj] at h1
  have h2 : v = l[j] := Option.some.inj h1
  simp [List.getD_eq_getElem?_getD, List.getElem?_eq_getElem hj, h2]

/-- Concrete stand-in primitives used to witness that the hypotheses of
the cipher theorems are satisfiable: a byte-wise shift cipher keyed by
the digit sums of key and IV, and a 32-byte keyed checksum.  They obey
the same structural laws as the real library primitives. -/
def toyPrims : CryptoPrims where
  kdf := fun pw salt len => (List.range len).map (fun i => (pw.sum + salt.sum + i) % 256)
  aesCfbEnc := fun k iv d => d.map (fun b => (b + k.sum + iv.sum) % 256)
  aesCfbDec := fun k iv d => d.map (fun b => (b + 256 - (k.sum + iv.sum) % 256) % 256)
  hmacSha256 := fun k m =>
    (List.range 32).map (fun i => (k.sum + (m.sum + m.length) * (i + 1)) % 256)

theorem map_mem_id {f : Nat → Nat} {l : List Nat} (h : ∀ x ∈ l, f x = x) :
    l.map f = l := by
  induction l with
  | nil => rfl
  | cons a t ih =>
    simp only [List.map_cons, h a (by simp), ih (fun x hx => h x (by simp [hx]))]

theorem toyLaws : CryptoLaws toyPrims := by
  constructor
  · intro k iv d
    simp [toyPrims]
  · intro k iv d b hb
    simp only [toyPrims, List.mem_map] at hb
    obtain ⟨a, _, rfl⟩ := hb
    omega
  · intro k iv d hd
    simp only [toyPrims, List.map_map]
    apply map_mem_id
    intro b hb
    have hb256 : b < 256 := hd b hb
    simp only [Function.comp]
    omega
  · intro k m
    simp [toyPrims]
  · intro k m b hb
    simp only [toyPrims, List.mem_map] at hb
    obtain ⟨a, _, rfl⟩ := hb
    omega

/-- Witness for C1: the round-trip evaluated at a concrete password,
plaintext, salt and IV. -/
theorem cipher_roundtrip_witness :
    aes_decrypt toyPrims (aes_encrypt toyPrims (List.replicate 16 2) (List.replicate 16 3)
      [10, 20, 30] [5, 6]) [5, 6] = Except.ok [10, 20, 30] :=
  cipher_roundtrip toyPrims toyLaws _ _ _ _ (by decide) (by decide) (by decide) (by decide)
    (by decide)

/-- C2.  Wrong-password detection: decrypting a blob produced under
password `p1` with a different password `p2` fails with
`IntegrityError` — the same MAC-mismatch path taken for tampering — and
never silently returns data.  The sole cryptographic assumption
(`hmacNe`) is the one the spec itself states: the wrong password derives
a wrong MAC key, whose MAC over the blob differs from the stored one. -/
theorem wrong_password_integrityError (P : CryptoPrims) (hL : CryptoLaws P)
    (salt iv m p1 p2 : List Nat)
    (hp : p1 ≠ p2)
    (hs : salt.length = 16) (hsB : ByteList salt)
    (hiv : iv.length = 16) (hivB : ByteList iv)
    (hm : ByteList m)
    (hmacNe : P.hmacSha256 (P.kdf p2 salt 32)
        (salt ++ iv ++ P.aesCfbEnc (P.kdf p1 salt 32) iv m) ≠
      P.hmacSha256 (P.kdf p1 salt 32)
        (salt ++ iv ++ P.aesCfbEnc (P.kdf p1 salt 32) iv m)) :
    aes_decrypt P (aes_encrypt P salt iv m p1) p2 = .error .integrityError := by
  have hraw : ByteList (salt ++ iv ++ P.aesCfbEnc (P.kdf p1 salt 32) iv m ++
      P.hmacSha256 (P.kdf p1 salt 32)
        (salt ++ iv ++ P.aesCfbEnc (P.kdf p1 salt 32) iv m)) :=
    byteList_append (byteList_append (byteList_append hsB hivB)
      (hL.encBytes _ _ _)) (hL.macBytes _ _)
  have hlen : (salt ++ iv ++ P.aesCfbEnc (P.kdf p1 salt 32) iv m ++
      P.hmacSha256 (P.kdf p1 salt 32)
        (salt ++ iv ++ P.aesCfbEnc (P.kdf p1 salt 32) iv m)).length =
      64 + m.length := by
    simp [hs, hiv, hL.encLen, hL.macLen]
    omega
  obtain ⟨e1, e2, e3, e4⟩ := blob_split salt iv
    (P.aesCfbEnc (P.kdf p1 salt 32) iv m)
    (P.hmacSha256 (P.kdf p1 salt 32) (salt ++ iv ++ P.aesCfbEnc (P.kdf p1 salt 32) iv m))
    hs hiv (hL.macLen _ _)
  unfold aes_encrypt aes_decrypt
  rw [b64decode_b64encode _ hraw]
  simp only []
  rw [if_neg (by omega), e1, e2, e3, e4, if_neg (fun h => hmacNe h.symm)]

/-- Witness for C2: two concrete distinct passwords on a concrete
plaintext and salt, where the two derived MAC keys indeed yield
different MACs. -/
theorem wrong_password_integrityError_witness :
    aes_decrypt toyPrims (aes_encrypt toyPrims (List.replicate 16 0) (List.replicate 16 0)
      [7] [0]) [1] = Except.error CryptoErr.integrityError :=
  wrong_password_integrityError toyPrims toyLaws _ _ _ _ _ (by decide) (by decide) (by decide)
    (by decide) (by decide) (by decide) (by decide)

/-- Generalised field extraction: slicing any `q(≥32 bytes) ++ mac(32)`
with `aes_decrypt`'s index arithmetic yields `q`'s three slices and
`mac`, and the three slices reassemble to `q`. -/
theorem blob_split_general (q mc : List Nat) (hq : 32 ≤ q.length) (hm : mc.length = 32) :
    (q ++ mc).take 16 = q.take 16 ∧
    ((q ++ mc).drop 16).take 16 = (q.drop 16).take 16 ∧
    ((q ++ mc).drop 32).take ((q ++ mc).length - 64) = q.drop 32 ∧
    (q ++ mc).drop ((q ++ mc).length - 32) = mc ∧
    q.take 16 ++ (q.drop 16).take 16 ++ q.drop 32 = q := by
  have hlen : (q ++ mc).length = q.length + 32 := by simp [hm]
  refine ⟨List.take_append_of_le_length (by omega), ?_, ?_, ?_, ?_⟩
  · rw [List.drop_append_of_le_length (by omega)]
    exact List.take_append_of_le_length (by simp; omega)
  · rw [List.drop_append_of_le_length (by omega), hlen]
    have e64 : q.length + 32 - 64 = (q.drop 32).length := by simp
    rw [e64, List.take_left]
  · rw [hlen]
    have e32 : q.length + 32 - 32 = q.length := by omega
    rw [e32, List.drop_left]
  · rw [List.append_assoc]
    have h1 : (q.drop 16).take 16 ++ (q.drop 16).drop 16 = q.drop 16 :=
      List.take_append_drop 16 (q.drop 16)
    have h2 : (q.drop 16).drop 16 = q.drop 32 := by
      rw [List.drop_drop]
    rw [← h2, h1, List.take_append_drop]

/-- Any well-shaped blob whose stored MAC differs from the MAC
`aes_decrypt` recomputes (from the blob's own salt) is rejected with
`IntegrityError`. -/
theorem decrypt_mismatch (P : CryptoPrims) (q mc pw : List Nat)
    (hq : 32 ≤ q.length) (hqB : ByteList q)
    (hmlen : mc.length = 32) (hmB : ByteList mc)
    (hne : mc ≠ P.hmacSha256 (P.kdf pw (q.take 16) 32) q) :
    aes_decrypt P (b64encode (q ++ mc)) pw = .error .integrityError := by
  obtain ⟨e1, e2, e3, e4, e5⟩ := blob_split_general q mc hq hmlen
  have hbytes := byteList_append hqB hmB
  unfold aes_decrypt
  rw [b64decode_b64encode _ hbytes]
  simp only []
  rw [if_neg (by simp [hmlen]; omega), e1, e2, e3, e4, e5, if_neg hne]

/-- The authenticated portion `salt ++ iv ++ ciphertext` that
`aes_encrypt` MACs. -/
def encryptAuthData (P : CryptoPrims) (salt iv data password : List Nat) : List Nat :=
  salt ++ iv ++ P.aesCfbEnc (P.kdf password salt 32) iv data

/-- The decoded (pre-base64) blob `salt ++ iv ++ ciphertext ++ mac`
emitted by `aes_encrypt`. -/
def encryptRaw (P : CryptoPrims) (salt iv data password : List Nat) : List Nat :=
  encryptAuthData P salt iv data password ++
    P.hmacSha256 (P.kdf password salt 32) (encryptAuthData P salt iv data password)

/-- C3 (amended).  Tamper detection holds on the decoded blob: changing
any single byte of `salt ++ iv ++ ciphertext ++ mac` to a different
value makes `aes_decrypt` fail with `IntegrityError` — unconditionally
when the changed byte lies in the 32-byte MAC region, and under the
no-HMAC-collision assumption `hcoll` when it lies in the authenticated
region.  (As stated over the base64 text the claim is false, see the
counterexample: a byte of the final base64 symbol can change without
changing the decoded bytes at all, and a byte outside the base64
alphabet fails with `FormatError` instead.) -/
theorem tamper_detection (P : CryptoPrims) (hL : CryptoLaws P)
    (salt iv m p : List Nat)
    (hs : salt.length = 16) (hsB : ByteList salt)
    (hiv : iv.length = 16) (hivB : ByteList iv)
    (hm : ByteList m)
    (i v : Nat) (hi : i < 64 + m.length) (hv : v < 256)
    (hne : v ≠ (encryptRaw P salt iv m p).getD i 0)
    (hcoll : i < 32 + m.length →
      P.hmacSha256 (P.kdf p (((encryptAuthData P salt iv m p).set i v).take 16) 32)
          ((encryptAuthData P salt iv m p).set i v) ≠
        P.hmacSha256 (P.kdf p salt 32) (encryptAuthData P salt iv m p)) :
    aes_decrypt P (b64encode ((encryptRaw P salt iv m p).set i v)) p =
      .error .integrityError := by
  have hqlen : (encryptAuthData P salt iv m p).length = 32 + m.length := by
    simp [encryptAuthData, hs, hiv, hL.encLen]
    omega
  have hmlen := hL.macLen (P.kdf p salt 32) (encryptAuthData P salt iv m p)
  have hqB : ByteList (encryptAuthData P salt iv m p) :=
    byteList_append (byteList_append hsB hivB) (hL.encBytes _ _ _)
  have hmB : ByteList (P.hmacSha256 (P.kdf p salt 32) (encryptAuthData P salt iv m p)) :=
    hL.macBytes _ _
  have hsalt : (encryptAuthData P salt iv m p).take 16 = salt := by
    unfold encryptAuthData
    rw [show salt ++ iv ++ P.aesCfbEnc (P.kdf p salt 32) iv m =
      salt ++ (iv ++ P.aesCfbEnc (P.kdf p salt 32) iv m) by simp, List.take_left' hs]
  rcases Nat.lt_or_ge i (32 + m.length) with hcase | hcase
  · rw [show encryptRaw P salt iv m p = encryptAuthData P salt iv m p ++
        P.hmacSha256 (P.kdf p salt 32) (encryptAuthData P salt iv m p) from rfl,
      List.set_append_left i v (by omega)]
    exact decrypt_mismatch P _ _ p (by simp only [List.length_set, hqlen]; omega)
      (byteList_set hqB hv) hmlen hmB (fun h => hcoll hcase h.symm)
  · have hgd : (encryptRaw P salt iv m p).getD i 0 =
        (P.hmacSha256 (P.kdf p salt 32) (encryptAuthData P salt iv m p)).getD
          (i - (encryptAuthData P salt iv m p).length) 0 := by
      rw [show encryptRaw P salt iv m p = encryptAuthData P salt iv m p ++
        P.hmacSha256 (P.kdf p salt 32) (encryptAuthData P salt iv m p) from rfl]
      simp only [List.getD_eq_getElem?_getD]
      rw [List.getElem?_append_right (by omega)]
    rw [show encryptRaw P salt iv m p = encryptAuthData P salt iv m p ++
        P.hmacSha256 (P.kdf p salt 32) (encryptAuthData P salt iv m p) from rfl,
      List.set_append_right i v (by omega)]
    apply decrypt_mismatch P _ _ p (by omega) hqB (by simp [hmlen]) (byteList_set hmB hv)
    rw [hsalt]
    apply set_ne_of_getD_ne _ _ _ (by omega)
    intro hveq
    exact hne (by rw [hgd]; exact hveq)

/-- Witness for C3 (amended): changing the decoded blob's byte 40 (a MAC
byte, value 128) to 0 is rejected with `IntegrityError`. -/
theorem tamper_detection_witness :
    (0 : Nat) ≠
      (encryptRaw toyPrims (List.replicate 16 0) (List.replicate 16 0) [65] [0]).getD 40 0 ∧
    aes_decrypt toyPrims
      (b64encode
        ((encryptRaw toyPrims (List.replicate 16 0) (List.replicate 16 0) [65] [0]).set 40 0))
      [0] = Except.error CryptoErr.integrityError :=
  ⟨by decide,
    tamper_detection toyPrims toyLaws (List.replicate 16 0) (List.replicate 16 0) [65] [0]
      (by decide) (by decide) (by decide) (by decide) (by decide) 40 0 (by decide) (by decide)
      (by decide) (fun h => absurd h (by decide))⟩

/-- Counterexample to C3 as stated: flipping byte 86 of the base64 blob
(an `A`, whose sextet carries two unused trailing bits) to `B` is a
genuine single-byte change of the blob, yet `aes_decrypt` succeeds and
returns the plaintext, because Python's base64 decoder discards the
unused trailing bits of the final symbol. -/
theorem tamper_detection_counterexample :
    ((aes_encrypt toyPrims (List.replicate 16 0) (List.replicate 16 0) [65] [0]).set 86 66 ≠
      aes_encrypt toyPrims (List.replicate 16 0) (List.replicate 16 0) [65] [0]) ∧
    aes_decrypt toyPrims
      ((aes_encrypt toyPrims (List.replicate 16 0) (List.replicate 16 0) [65] [0]).set 86 66)
      [0] = Except.ok [65] := by
  refine ⟨by decide, ?_⟩
  rfl

/-- Model of the pair of keys derived in `aes_encrypt`
(crypto_utils.py lines 38-39): both components call `derive_key` with
the identical password, salt and output length. -/
def encryptDerivedKeys (P : CryptoPrims) (salt password : List Nat) : List Nat × List Nat :=
  (P.kdf password salt 32, P.kdf password salt 32)

/-- C8.  Key-reuse flaw: `derive_key` is a pure function of
(password, salt, length), so the encryption key and the MAC key derived
in every execution of `aes_encrypt` are identical byte strings, and the
whole blob can be expressed using the single shared key for both the
cipher and the MAC. -/
theorem encrypt_key_reuse (P : CryptoPrims) (salt iv data password : List Nat) :
    (encryptDerivedKeys P salt password).1 = (encryptDerivedKeys P salt password).2 ∧
    aes_encrypt P salt iv data password =
      b64encode (salt ++ iv ++
        P.aesCfbEnc (encryptDerivedKeys P salt password).1 iv data ++
        P.hmacSha256 (encryptDerivedKeys P salt password).1
          (salt ++ iv ++ P.aesCfbEnc (encryptDerivedKeys P salt password).1 iv data)) :=
  ⟨rfl, rfl⟩

/-- External signing-library primitives (`eth_account`, `web3`) used by
`keyManager.py`: `Account.from_key` (modelled by its derived address,
`none` on an invalid key), `sign_message` on a defunct-encoded message,
`sign_transaction`, and `unsafe_sign_hash`. -/
structure SignPrims where
  addrOf : List Nat → Option Nat
  signMsg : List Nat → List Nat → Option (List Nat)
  signTx : List Nat → List Nat → Option (List Nat)
  signHash : List Nat → List Nat → Option (List Nat)

/-- Documented behaviour of the signing library: `Account.from_key`
accepts exactly 32-byte keys, and `unsafe_sign_hash` (given a valid key)
succeeds exactly on 32-byte digests, returning the 65-byte `r‖s‖v`
concatenation. -/
structure SignLaws (S : SignPrims) : Prop where
  addrLen : ∀ k a, S.addrOf k = some a → k.length = 32
  signHashSome : ∀ k h, (S.addrOf k).isSome → ((S.signHash k h).isSome ↔ h.length = 32)
  signHashLen : ∀ k h s, S.signHash k h = some s → s.length = 65

/-- Failure classes of `KeyManager`: `lockedError` is `PermissionError`,
`notFoundError` is `FileNotFoundError`, `cryptoError` is the generic
`CryptoError` wrapper, `integrityError`/`wrongKeyError` are the
propagated cipher errors, and `otherError` is an exception escaping
uncaught (the `Account.from_key` call on line 63 sits outside the
`try`). -/
inductive KMErr where
  | lockedError
  | notFoundError
  | cryptoError
  | integrityError
  | wrongKeyError
  | otherError
  deriving DecidableEq, Repr

/-- Signer state of `KeyManager` (keyManager.py lines 14-18), with the
keystore file content folded in as `storage` (`none` = no file). -/
structure KMState where
  storage : Option (List Nat)
  privateKey : Option (List Nat)
  address : Option Nat
  unlocked : Bool
  deriving DecidableEq, Repr

/-- Model of `KeyManager.__init__`: no key resident, no address, locked;
the file at `storage_path` may or may not already exist. -/
def initKM (file : Option (List Nat)) : KMState :=
  { storage := file, privateKey := none, address := none, unlocked := false }

/-- Model of `KeyManager.create_new_key` (lines 22-33).  The freshly
generated random key and the encryption salt/IV are explicit arguments.
The blob is written before the address is derived; `unlocked` and
`_private_key` are never assigned. -/
def create_new_key (C : CryptoPrims) (S : SignPrims) (st : KMState)
    (salt iv newKey pw : List Nat) : KMState × Except KMErr Nat :=
  let blob := aes_encrypt C salt iv newKey pw
  let st1 := { st with storage := some blob }
  match S.addrOf newKey with
  | some a => ({ st1 with address := some a }, .ok a)
  | none => (st1, .error .cryptoError)

/-- Model of `KeyManager.import_private_key` (lines 35-46), with the hex
string already parsed to bytes.  The blob is written before
`Account.from_key` runs, so a failure there (wrapped to `CryptoError`)
leaves the new blob on disk. -/
def import_private_key (C : CryptoPrims) (S : SignPrims) (st : KMState)
    (salt iv keyBytes pw : List Nat) : KMState × Except KMErr Nat :=
  let blob := aes_encrypt C salt iv keyBytes pw
  let st1 := { st with storage := some blob }
  match S.addrOf keyBytes with
  | some a => ({ st1 with address := some a }, .ok a)
  | none => (st1, .error .cryptoError)

/-- Model of `KeyManager.unlock` (lines 48-65).  Decryption errors are
re-raised inside the `try`; the assignment `self._private_key = ...` on
line 62 precedes the `Account.from_key` call on line 63, which sits
outside the `try`, so its failure (`otherError`) leaves the key assigned
and `unlocked` untouched. -/
def unlock (C : CryptoPrims) (S : SignPrims) (st : KMState) (pw : List Nat) :
    KMState × Except KMErr Nat :=
  match st.storage with
  | none => (st, .error .notFoundError)
  | some data =>
    match aes_decrypt C data pw with
    | .error .wrongKeyError => (st, .error .wrongKeyError)
    | .error .integrityError => (st, .error .integrityError)
    | .error .formatError => (st, .error .cryptoError)
    | .ok pk =>
      let st1 := { st with privateKey := some pk }
      match S.addrOf pk with
      | none => (st1, .error .otherError)
      | some a => ({ st1 with address := some a, unlocked := true }, .ok a)

/-- Model of `KeyManager.lock` (lines 67-69): discards the key and
clears the flag; always succeeds. -/
def lock (st : KMState) : KMState :=
  { st with privateKey := none, unlocked := false }

/-- Model of `KeyManager.sign_message` (lines 108-116): locked check
first (`PermissionError`), then `Account.from_key` and the library sign,
any failure wrapped to `CryptoError`.  The method assigns no state. -/
def sign_message (S : SignPrims) (st : KMState) (msg : List Nat) :
    KMState × Except KMErr (List Nat) :=
  (st,
    if st.unlocked = false then .error .lockedError
    else
      match st.privateKey with
      | none => .error .cryptoError
      | some pk =>
        match S.addrOf pk with
        | none => .error .cryptoError
        | some _ =>
          match S.signMsg pk msg with
          | some s => .ok s
          | none => .error .cryptoError)

/-- Model of `KeyManager.sign_transaction` (lines 118-126). -/
def sign_transaction (S : SignPrims) (st : KMState) (tx : List Nat) :
    KMState × Except KMErr (List Nat) :=
  (st,
    if st.unlocked = false then .error .lockedError
    else
      match st.privateKey with
      | none => .error .cryptoError
      | some pk =>
        match S.addrOf pk with
        | none => .error .cryptoError
        | some _ =>
          match S.signTx pk tx with
          | some s => .ok s
          | none => .error .cryptoError)

/-- Model of `KeyManager.sign_userop` (lines 127-146): locked check
first, then `Account.from_key` and `unsafe_sign_hash`, any library
failure (including a non-32-byte hash) wrapped to `CryptoError`. -/
def sign_userop (S : SignPrims) (st : KMState) (h : List Nat) :
    KMState × Except KMErr (List Nat) :=
  (st,
    if st.unlocked = false then .error .lockedError
    else
      match st.privateKey with
      | none => .error .cryptoError
      | some pk =>
        match S.addrOf pk with
        | none => .error .cryptoError
        | some _ =>
          match S.signHash pk h with
          | some s => .ok s
          | none => .error .cryptoError)

/-- States reachable by the operation set of claim C10: construction,
create, import, unlock, lock and the three sign operations, with
arbitrary parameters. -/
inductive Reachable (C : CryptoPrims) (S : SignPrims) : KMState → Prop where
  | init (file : Option (List Nat)) : Reachable C S (initKM file)
  | create (st : KMState) (salt iv newKey pw : List Nat) (h : Reachable C S st) :
      Reachable C S (create_new_key C S st salt iv newKey pw).1
  | importKey (st : KMState) (salt iv keyBytes pw : List Nat) (h : Reachable C S st) :
      Reachable C S (import_private_key C S st salt iv keyBytes pw).1
  | unlockOp (st : KMState) (pw : List Nat) (h : Reachable C S st) :
      Reachable C S (unlock C S st pw).1
  | lockOp (st : KMState) (h : Reachable C S st) : Reachable C S (lock st)
  | signMessageOp (st : KMState) (msg : List Nat) (h : Reachable C S st) :
      Reachable C S (sign_message S st msg).1
  | signTransactionOp (st : KMState) (tx : List Nat) (h : Reachable C S st) :
      Reachable C S (sign_transaction S st tx).1
  | signUseropOp (st : KMState) (dgst : List Nat) (h : Reachable C S st) :
      Reachable C S (sign_userop S st dgst).1

/-- Concrete stand-in signing primitives for witnesses: only 32-byte
keys are valid, hash signing additionally demands a 32-byte digest and
returns 65 bytes, as the law structure requires. -/
def toySign : SignPrims where
  addrOf := fun k => if k.length = 32 then some k.sum else none
  signMsg := fun k m => if k.length = 32 then some (k ++ m) else none
  signTx := fun k t => if k.length = 32 then some (k ++ t) else none
  signHash := fun k h =>
    if k.length = 32 ∧ h.length = 32 then some (List.replicate 65 (k.sum % 256)) else none

theorem toySignLaws : SignLaws toySign := by
  constructor
  · intro k a h
    simp only [toySign] at h
    by_cases hk : k.length = 32
    · exact hk
    · simp [hk] at h
  · intro k h hk
    simp only [toySign] at hk ⊢
    by_cases h32 : k.length = 32
    · simp [h32]
    · simp [h32] at hk
  · intro k h s hs
    simp only [toySign] at hs
    by_cases h32 : k.length = 32 ∧ h.length = 32
    · simp [h32] at hs
      simp [← hs]
    · simp [h32] at hs

/-- C9.  Failed-unlock atomicity: when `unlock` fails with
`NotFoundError`, `IntegrityError` or `WrongKeyError`, the signer state —
raw key, address, `unlocked` flag and the keystore file — is exactly as
before the call. -/
theorem unlock_failure_atomic (C : CryptoPrims) (S : SignPrims) (st : KMState) (pw : List Nat)
    (e : KMErr) (he : (unlock C S st pw).2 = .error e)
    (hcase : e = KMErr.notFoundError ∨ e = KMErr.integrityError ∨ e = KMErr.wrongKeyError) :
    (unlock C S st pw).1 = st := by
  cases hst : st.storage with
  | none => simp [unlock, hst]
  | some data =>
    cases hdec : aes_decrypt C data pw with
    | error ce => cases ce <;> simp [unlock, hst, hdec]
    | ok pk =>
      cases haddr : S.addrOf pk with
      | none =>
        simp only [unlock, hst, hdec, haddr] at he
        cases he
        rcases hcase with h | h | h <;> cases h
      | some a =>
        simp [unlock, hst, hdec, haddr] at he

/-- Witness for C9: unlocking with no keystore file fails with
`NotFoundError` and leaves the fresh state untouched. -/
theorem unlock_failure_atomic_witness :
    (unlock toyPrims toySign (initKM none) [0]).2 = Except.error KMErr.notFoundError ∧
    (unlock toyPrims toySign (initKM none) [0]).1 = initKM none :=
  ⟨rfl, unlock_failure_atomic toyPrims toySign (initKM none) [0] KMErr.notFoundError rfl
    (Or.inl rfl)⟩

/-- C7.  Hash-length validation on an unlocked signer holding a valid
key: a digest whose length is not 32 makes `sign_userop` fail (the
signing library rejects it and the source wraps this in its generic
`CryptoError` — the spec's `InputError` for this path, distinct from
`LockedError`); a 32-byte digest yields a 65-byte signature. -/
theorem sign_userop_hash_length (S : SignPrims) (hL : SignLaws S)
    (st : KMState) (pk h : List Nat) (a : Nat)
    (hu : st.unlocked = true) (hpk : st.privateKey = some pk)
    (haddr : S.addrOf pk = some a) :
    (h.length ≠ 32 → (sign_userop S st h).2 = .error .cryptoError) ∧
    (h.length = 32 → ∃ s, (sign_userop S st h).2 = .ok s ∧ s.length = 65) := by
  have hsome : (S.addrOf pk).isSome := by simp [haddr]
  constructor
  · intro hne
    have hnone : S.signHash pk h = none := by
      cases hsig : S.signHash pk h with
      | none => rfl
      | some s =>
        exact absurd ((hL.signHashSome pk h hsome).mp (by simp [hsig])) hne
    simp [sign_userop, hu, hpk, haddr, hnone]
  · intro h32
    obtain ⟨s, hs⟩ := Option.isSome_iff_exists.mp ((hL.signHashSome pk h hsome).mpr h32)
    exact ⟨s, by simp [sign_userop, hu, hpk, haddr, hs], hL.signHashLen pk h s hs⟩

/-- Witness for C7: a concrete unlocked signer rejects a 31-byte digest
and signs a 32-byte digest with 65 bytes. -/
theorem sign_userop_hash_length_witness :
    (sign_userop toySign
        { storage := none, privateKey := some (List.replicate 32 1), address := some 32,
          unlocked := true } (List.replicate 31 0)).2 = Except.error KMErr.cryptoError ∧
    (∃ s, (sign_userop toySign
        { storage := none, privateKey := some (List.replicate 32 1), address := some 32,
          unlocked := true } (List.replicate 32 0)).2 = Except.ok s ∧ s.length = 65) :=
  ⟨(sign_userop_hash_length toySign toySignLaws _ (List.replicate 32 1) (List.replicate 31 0)
      32 rfl rfl (by decide)).1 (by decide),
   (sign_userop_hash_length toySign toySignLaws _ (List.replicate 32 1) (List.replicate 32 0)
      32 rfl rfl (by decide)).2 (by decide)⟩

theorem toySign_msg_some (msg : List Nat) :
    ∀ k, (toySign.addrOf k).isSome → (toySign.signMsg k msg).isSome := by
  intro k hk
  simp only [toySign] at hk ⊢
  by_cases h32 : k.length = 32
  · simp [h32]
  · simp [h32] at hk

theorem toySign_tx_some (tx : List Nat) :
    ∀ k, (toySign.addrOf k).isSome → (toySign.signTx k tx).isSome := by
  intro k hk
  simp only [toySign] at hk ⊢
  by_cases h32 : k.length = 32
  · simp [h32]
  · simp [h32] at hk

/-- C4.  Lock gating: on a freshly constructed signer and on any signer
after `lock()`, each sign operation fails with `LockedError`; after a
successful `unlock` (with the correct password, expressed by `unlock`
returning `ok`) all three succeed; after a subsequent `lock()` they fail
with `LockedError` again.  The `hmsg`/`htx`/`hsh` hypotheses are the
library's documented success conditions on a valid key. -/
theorem lock_gating (C : CryptoPrims) (S : SignPrims)
    (file : Option (List Nat)) (st st2 : KMState) (pw msg tx dgst : List Nat) (a : Nat)
    (hmsg : ∀ k, (S.addrOf k).isSome → (S.signMsg k msg).isSome)
    (htx : ∀ k, (S.addrOf k).isSome → (S.signTx k tx).isSome)
    (hsh : ∀ k, (S.addrOf k).isSome → ((S.signHash k dgst).isSome ↔ dgst.length = 32))
    (hdg : dgst.length = 32)
    (hunlock : (unlock C S st pw).2 = .ok a) :
    ((sign_message S (initKM file) msg).2 = .error .lockedError ∧
     (sign_transaction S (initKM file) tx).2 = .error .lockedError ∧
     (sign_userop S (initKM file) dgst).2 = .error .lockedError) ∧
    ((sign_message S (lock st2) msg).2 = .error .lockedError ∧
     (sign_transaction S (lock st2) tx).2 = .error .lockedError ∧
     (sign_userop S (lock st2) dgst).2 = .error .lockedError) ∧
    ((∃ s, (sign_message S (unlock C S st pw).1 msg).2 = .ok s) ∧
     (∃ s, (sign_transaction S (unlock C S st pw).1 tx).2 = .ok s) ∧
     (∃ s, (sign_userop S (unlock C S st pw).1 dgst).2 = .ok s)) ∧
    ((sign_message S (lock (unlock C S st pw).1) msg).2 = .error .lockedError ∧
     (sign_transaction S (lock (unlock C S st pw).1) tx).2 = .error .lockedError ∧
     (sign_userop S (lock (unlock C S st pw).1) dgst).2 = .error .lockedError) := by
  cases hst : st.storage with
  | none => simp [unlock, hst] at hunlock
  | some data =>
    cases hdec : aes_decrypt C data pw with
    | error ce => cases ce <;> simp [unlock, hst, hdec] at hunlock
    | ok pk =>
      cases haddr : S.addrOf pk with
      | none => simp [unlock, hst, hdec, haddr] at hunlock
      | some a0 =>
        have hu : (unlock C S st pw).1.unlocked = true := by
          simp [unlock, hst, hdec, haddr]
        have hpk : (unlock C S st pw).1.privateKey = some pk := by
          simp [unlock, hst, hdec, haddr]
        refine ⟨⟨rfl, rfl, rfl⟩, ⟨rfl, rfl, rfl⟩, ⟨?_, ?_, ?_⟩, ⟨rfl, rfl, rfl⟩⟩
        · obtain ⟨s, hs⟩ := Option.isSome_iff_exists.mp (hmsg pk (by simp [haddr]))
          exact ⟨s, by simp [sign_message, hu, hpk, haddr, hs]⟩
        · obtain ⟨s, hs⟩ := Option.isSome_iff_exists.mp (htx pk (by simp [haddr]))
          exact ⟨s, by simp [sign_transaction, hu, hpk, haddr, hs]⟩
        · obtain ⟨s, hs⟩ :=
            Option.isSome_iff_exists.mp ((hsh pk (by simp [haddr])).mpr hdg)
          exact ⟨s, by simp [sign_userop, hu, hpk, haddr, hs]⟩

set_option maxRecDepth 8000 in
/-- Witness for C4: a concrete create-then-unlock signer signs a
message successfully. -/
theorem lock_gating_witness :
    ∃ s, (sign_message toySign
      (unlock toyPrims toySign
        (create_new_key toyPrims toySign (initKM none)
          (List.replicate 16 0) (List.replicate 16 0) (List.replicate 32 1) [0]).1
        [0]).1
      [7, 8]).2 = Except.ok s :=
  ((lock_gating toyPrims toySign none
      (create_new_key toyPrims toySign (initKM none)
        (List.replicate 16 0) (List.replicate 16 0) (List.replicate 32 1) [0]).1
      (initKM none) [0] [7, 8] [9] (List.replicate 32 0) 32
      (toySign_msg_some [7, 8]) (toySign_tx_some [9])
      (fun k hk => toySignLaws.signHashSome k (List.replicate 32 0) hk)
      (by decide) rfl).2.2.1).1

/-- C10 (amended).  Every sequence of KeyManager operations preserves
the invariant that `unlocked = true` implies a raw key object is
resident (`privateKey` is `some`), and `create_new_key` and
`import_private_key` never change `privateKey` or `unlocked`, so only
`unlock` can make signing reachable.  (The stronger reading — the
resident key is a *non-empty* byte string — fails, see the
counterexample: importing an empty key and re-unlocking while already
unlocked leaves `unlocked = true` with `privateKey = some []`.) -/
theorem km_invariant (C : CryptoPrims) (S : SignPrims) :
    (∀ st, Reachable C S st → st.unlocked = true → st.privateKey.isSome) ∧
    (∀ st salt iv k pw,
      (create_new_key C S st salt iv k pw).1.unlocked = st.unlocked ∧
      (create_new_key C S st salt iv k pw).1.privateKey = st.privateKey) ∧
    (∀ st salt iv k pw,
      (import_private_key C S st salt iv k pw).1.unlocked = st.unlocked ∧
      (import_private_key C S st salt iv k pw).1.privateKey = st.privateKey) := by
  have hcre : ∀ st salt iv k pw,
      (create_new_key C S st salt iv k pw).1.unlocked = st.unlocked ∧
      (create_new_key C S st salt iv k pw).1.privateKey = st.privateKey := by
    intro st salt iv k pw
    unfold create_new_key
    cases S.addrOf k <;> simp
  have himp : ∀ st salt iv k pw,
      (import_private_key C S st salt iv k pw).1.unlocked = st.unlocked ∧
      (import_private_key C S st salt iv k pw).1.privateKey = st.privateKey := by
    intro st salt iv k pw
    unfold import_private_key
    cases S.addrOf k <;> simp
  refine ⟨?_, hcre, himp⟩
  intro st hreach
  induction hreach with
  | init file =>
    intro hu
    simp [initKM] at hu
  | create st salt iv k pw h ih =>
    intro hu
    rw [(hcre st salt iv k pw).2]
    exact ih (by rw [← (hcre st salt iv k pw).1]; exact hu)
  | importKey st salt iv k pw h ih =>
    intro hu
    rw [(himp st salt iv k pw).2]
    exact ih (by rw [← (himp st salt iv k pw).1]; exact hu)
  | unlockOp st pw h ih =>
    intro hu
    cases hst : st.storage with
    | none =>
      have he : (unlock C S st pw).1 = st := by simp [unlock, hst]
      rw [he] at hu ⊢
      exact ih hu
    | some data =>
      cases hdec : aes_decrypt C data pw with
      | error ce =>
        have he : (unlock C S st pw).1 = st := by cases ce <;> simp [unlock, hst, hdec]
        rw [he] at hu ⊢
        exact ih hu
      | ok pk =>
        cases haddr : S.addrOf pk with
        | none =>
          have he : (unlock C S st pw).1.privateKey = some pk := by
            simp [unlock, hst, hdec, haddr]
          simp [he]
        | some a =>
          have he : (unlock C S st pw).1.privateKey = some pk := by
            simp [unlock, hst, hdec, haddr]
          simp [he]
  | lockOp st h ih =>
    intro hu
    simp [lock] at hu
  | signMessageOp st msg h ih => exact ih
  | signTransactionOp st tx h ih => exact ih
  | signUseropOp st dgst h ih => exact ih

set_option maxRecDepth 8000 in
/-- Witness for C10 (amended): a concrete reachable unlocked state does
hold a resident key object. -/
theorem km_invariant_witness :
    ((unlock toyPrims toySign
      (create_new_key toyPrims toySign (initKM none)
        (List.replicate 16 0) (List.replicate 16 0) (List.replicate 32 1) [0]).1
      [0]).1.privateKey).isSome :=
  (km_invariant toyPrims toySign).1 _
    (Reachable.unlockOp _ _ (Reachable.create _ _ _ _ _ (Reachable.init none)))
    (by decide)

set_option maxRecDepth 8000 in
/-- Counterexample to C10 as stated: the sequence
construction → create → unlock → import of an *empty* key (valid call,
`bytes.fromhex("")`) → unlock again reaches a state with
`unlocked = true` but `privateKey = some []` — an *empty* resident key —
because `unlock` assigns `self._private_key` before the
`Account.from_key` call (outside the `try`) fails on the empty key. -/
theorem km_invariant_counterexample :
    Reachable toyPrims toySign
      (unlock toyPrims toySign
        (import_private_key toyPrims toySign
          (unlock toyPrims toySign
            (create_new_key toyPrims toySign (initKM none)
              (List.replicate 16 0) (List.replicate 16 0) (List.replicate 32 1) [0]).1
            [0]).1
          (List.replicate 16 0) (List.replicate 16 0) [] [0]).1
        [0]).1 ∧
    (unlock toyPrims toySign
        (import_private_key toyPrims toySign
          (unlock toyPrims toySign
            (create_new_key toyPrims toySign (initKM none)
              (List.replicate 16 0) (List.replicate 16 0) (List.replicate 32 1) [0]).1
            [0]).1
          (List.replicate 16 0) (List.replicate 16 0) [] [0]).1
        [0]).1.unlocked = true ∧
    (unlock toyPrims toySign
        (import_private_key toyPrims toySign
          (unlock toyPrims toySign
            (create_new_key toyPrims toySign (initKM none)
              (List.replicate 16 0) (List.replicate 16 0) (List.replicate 32 1) [0]).1
            [0]).1
          (List.replicate 16 0) (List.replicate 16 0) [] [0]).1
        [0]).1.privateKey = some [] :=
  ⟨Reachable.unlockOp _ _ (Reachable.importKey _ _ _ _ _
      (Reachable.unlockOp _ _ (Reachable.create _ _ _ _ _ (Reachable.init none)))),
   by decide, by decide⟩

/-- Big-endian encoding of `n` into `len` bytes, the byte string
Python's `int.to_bytes(len, "big")` produces when `n < 256 ^ len`. -/
def natToBEbytes : Nat → Nat → List Nat
  | 0, _ => []
  | len + 1, n => natToBEbytes len (n / 256) ++ [n % 256]

/-- Big-endian byte-list decoding, the inverse of `natToBEbytes`. -/
def fromBEbytes : List Nat → Nat
  | [] => 0
  | b :: rest => b * 256 ^ rest.length + fromBEbytes rest

/-- Model of Python `int.to_bytes(len, "big")`: `none` models the
`OverflowError` raised when the value does not fit in `len` bytes. -/
def intToBytes (len n : Nat) : Option (List Nat) :=
  if n < 256 ^ len then some (natToBEbytes len n) else none

theorem natToBEbytes_length (len : Nat) : ∀ n, (natToBEbytes len n).length = len := by
  induction len with
  | zero => intro n; rfl
  | succ k ih => intro n; simp [natToBEbytes, ih]

theorem fromBEbytes_append (a b : List Nat) :
    fromBEbytes (a ++ b) = fromBEbytes a * 256 ^ b.length + fromBEbytes b := by
  induction a with
  | nil => simp [fromBEbytes]
  | cons x t ih =>
    simp only [List.cons_append, fromBEbytes, ih, List.append_eq, List.length_append, pow_add]
    ring

theorem fromBEbytes_natToBEbytes (len : Nat) : ∀ n, n < 256 ^ len →
    fromBEbytes (natToBEbytes len n) = n := by
  induction len with
  | zero =>
    intro n hn
    have h0 : n = 0 := by
      have : (256 : Nat) ^ 0 = 1 := by norm_num
      omega
    subst h0
    rfl
  | succ k ih =>
    intro n hn
    have hpow : (256 : Nat) ^ (k + 1) = 256 ^ k * 256 := by ring
    have hdiv : n / 256 < 256 ^ k := by omega
    rw [natToBEbytes, fromBEbytes_append, ih (n / 256) hdiv]
    simp [fromBEbytes]
    omega

theorem natToBEbytes_split (j k : Nat) : ∀ n,
    natToBEbytes (j + k) n = natToBEbytes j (n / 256 ^ k) ++ natToBEbytes k (n % 256 ^ k) := by
  induction k with
  | zero =>
    intro n
    simp [natToBEbytes]
  | succ k ih =>
    intro n
    have e1 : n / 256 / 256 ^ k = n / 256 ^ (k + 1) := by
      rw [Nat.div_div_eq_div_mul]
      congr 1
      ring
    have e2 : n / 256 % 256 ^ k = n % 256 ^ (k + 1) / 256 := by
      rw [show (256 : Nat) ^ (k + 1) = 256 * 256 ^ k by ring, Nat.mod_mul_right_div_self]
    have e3 : n % 256 ^ (k + 1) % 256 = n % 256 := by
      exact Nat.mod_mod_of_dvd n ⟨256 ^ k, by ring⟩
    show natToBEbytes (j + k + 1) n = _
    rw [natToBEbytes, natToBEbytes, ih (n / 256), e1, e2, e3, List.append_assoc]

/-- Value of the packed field: with both halves below `2 ^ 128` the
shift-or of the source is exact 128-bit concatenation. -/
theorem mul_two_pow_lor_eq_add : ∀ (n v c : Nat), c < 2 ^ n →
    (v * 2 ^ n) ||| c = v * 2 ^ n + c := by
  intro n
  induction n with
  | zero =>
    intro v c hc
    have hc0 : c = 0 := by omega
    subst hc0
    simp
  | succ n ih =>
    intro v c hc
    have hpow : (2 : Nat) ^ (n + 1) = 2 * 2 ^ n := by ring
    have hc2 : c / 2 < 2 ^ n := by omega
    have key := ih v (c / 2) hc2
    have hrel : v * 2 ^ (n + 1) = 2 * (v * 2 ^ n) := by ring
    have hvbit : v * 2 ^ (n + 1) = Nat.bit false (v * 2 ^ n) := by
      rw [show Nat.bit false (v * 2 ^ n) = 2 * (v * 2 ^ n) from rfl]
      exact hrel
    rcases (by omega : c % 2 = 0 ∨ c % 2 = 1) with h2 | h2
    · have hcbit : c = Nat.bit false (c / 2) := by
        rw [show Nat.bit false (c / 2) = 2 * (c / 2) from rfl]
        omega
      rw [hvbit, hcbit, Nat.lor_bit, key]
      rw [show Nat.bit (false || false) (v * 2 ^ n + c / 2) =
        2 * (v * 2 ^ n + c / 2) from rfl]
      omega
    · have hcbit : c = Nat.bit true (c / 2) := by
        rw [show Nat.bit true (c / 2) = 2 * (c / 2) + 1 from rfl]
        omega
      rw [hvbit, hcbit, Nat.lor_bit, key]
      rw [show Nat.bit (false || true) (v * 2 ^ n + c / 2) =
        2 * (v * 2 ^ n + c / 2) + 1 from rfl]
      omega

theorem shiftLeft_lor_eq (v c : Nat) (hc : c < 2 ^ 128) :
    (v <<< 128) ||| c = v * 2 ^ 128 + c := by
  rw [Nat.shiftLeft_eq]
  exact mul_two_pow_lor_eq_add 128 v c hc

/-- The `PackedUserOperation` record assembled by
`Account.build_user_operation`. -/
structure UserOp where
  sender : List Nat
  nonce : Nat
  initCode : List Nat
  callData : List Nat
  accountGasLimits : List Nat
  preVerificationGas : Nat
  gasFees : List Nat
  paymasterAndData : List Nat
  signature : List Nat
  deriving DecidableEq, Repr

/-- The only failure the builder can raise on provided inputs: Python's
`OverflowError` escaping uncaught from `int.to_bytes(32, "big")`. -/
inductive BuildErr where
  | overflowError
  deriving DecidableEq, Repr

/-- Model of `Account.build_user_operation` (account.py lines 142-198)
on the pure path where nonce and both fees are provided (no RPC fetch).
The source performs no 128-bit validation: it packs each pair with
`(hi << 128) | lo` and hands the result to `int.to_bytes(32, "big")`;
`initCode` is always empty. -/
def build_user_operation (sender call_data : List Nat) (nonce : Nat)
    (max_fee_per_gas max_priority_fee_per_gas call_gas_limit verification_gas_limit
      pre_verification_gas : Nat)
    (paymaster_and_data signature0 : List Nat) : Except BuildErr UserOp :=
  let account_gas_limits := (verification_gas_limit <<< 128) ||| call_gas_limit
  let gas_fees := (max_priority_fee_per_gas <<< 128) ||| max_fee_per_gas
  match intToBytes 32 account_gas_limits, intToBytes 32 gas_fees with
  | some agl, some gf =>
    .ok { sender := sender, nonce := nonce, initCode := [], callData := call_data,
          accountGasLimits := agl, preVerificationGas := pre_verification_gas,
          gasFees := gf, paymasterAndData := paymaster_and_data, signature := signature0 }
  | _, _ => .error .overflowError

/-- Packed 32-byte concatenation of two sub-128-bit values splits into
its two big-endian 16-byte halves, each decoding to its input. -/
theorem pack_split (v c : Nat) (hv : v < 2 ^ 128) (hc : c < 2 ^ 128) :
    natToBEbytes 32 ((v <<< 128) ||| c) = natToBEbytes 16 v ++ natToBEbytes 16 c ∧
    fromBEbytes (natToBEbytes 16 v) = v ∧ fromBEbytes (natToBEbytes 16 c) = c := by
  have hpow : (2 : Nat) ^ 128 = 256 ^ 16 := by norm_num
  have hval := shiftLeft_lor_eq v c hc
  have hdiv : (v * 2 ^ 128 + c) / 256 ^ 16 = v := by
    rw [← hpow, Nat.mul_comm v, Nat.mul_add_div (by positivity), Nat.div_eq_of_lt hc]
    omega
  have hmod : (v * 2 ^ 128 + c) % 256 ^ 16 = c := by
    rw [← hpow, Nat.mul_comm v, Nat.mul_add_mod]
    exact Nat.mod_eq_of_lt hc
  refine ⟨?_, fromBEbytes_natToBEbytes 16 v (by omega),
    fromBEbytes_natToBEbytes 16 c (by omega)⟩
  rw [hval, show (32 : Nat) = 16 + 16 from rfl, natToBEbytes_split 16 16, hdiv, hmod]

/-- The record `build_user_operation` returns on in-range inputs,
written with the packed fields already in byte form. -/
def builtUserOp (sender call_data paymaster signature0 : List Nat)
    (nonce preVer v c mp mf : Nat) : UserOp :=
  { sender := sender, nonce := nonce, initCode := [], callData := call_data,
    accountGasLimits := natToBEbytes 32 ((v <<< 128) ||| c), preVerificationGas := preVer,
    gasFees := natToBEbytes 32 ((mp <<< 128) ||| mf), paymasterAndData := paymaster,
    signature := signature0 }

set_option maxRecDepth 8000 in
/-- C5.  Packing correctness: with all four gas/fee values in
`[0, 2^128-1]`, the built record's `accountGasLimits` is
`(verificationGasLimit << 128) | callGasLimit` as 32 big-endian bytes
and `gasFees` is `(maxPriorityFeePerGas << 128) | maxFeePerGas` as 32
big-endian bytes, and each 16-byte half decodes back to the exact input
pair. -/
theorem packing_correct (sender call_data paymaster signature0 : List Nat)
    (nonce preVer v c mp mf : Nat)
    (hv : v < 2 ^ 128) (hc : c < 2 ^ 128) (hmp : mp < 2 ^ 128) (hmf : mf < 2 ^ 128) :
    ∃ op, build_user_operation sender call_data nonce mf mp c v preVer paymaster signature0 =
        .ok op ∧
      op.accountGasLimits = natToBEbytes 32 ((v <<< 128) ||| c) ∧
      op.gasFees = natToBEbytes 32 ((mp <<< 128) ||| mf) ∧
      op.accountGasLimits.length = 32 ∧ op.gasFees.length = 32 ∧
      fromBEbytes (op.accountGasLimits.take 16) = v ∧
      fromBEbytes (op.accountGasLimits.drop 16) = c ∧
      fromBEbytes (op.gasFees.take 16) = mp ∧
      fromBEbytes (op.gasFees.drop 16) = mf := by
  have hpow : (2 : Nat) ^ 128 = 256 ^ 16 := by norm_num
  have hpow2 : (256 : Nat) ^ 32 = 256 ^ 16 * 256 ^ 16 := by ring
  obtain ⟨hsplit1, hdec1v, hdec1c⟩ := pack_split v c hv hc
  obtain ⟨hsplit2, hdec2v, hdec2c⟩ := pack_split mp mf hmp hmf
  have hb1 : (v <<< 128) ||| c < 256 ^ 32 := by
    rw [shiftLeft_lor_eq v c hc]
    have : v * 2 ^ 128 ≤ (256 ^ 16 - 1) * 256 ^ 16 := by
      rw [← hpow]
      apply Nat.mul_le_mul_right
      omega
    omega
  have hb2 : (mp <<< 128) ||| mf < 256 ^ 32 := by
    rw [shiftLeft_lor_eq mp mf hmf]
    have : mp * 2 ^ 128 ≤ (256 ^ 16 - 1) * 256 ^ 16 := by
      rw [← hpow]
      apply Nat.mul_le_mul_right
      omega
    omega
  refine ⟨builtUserOp sender call_data paymaster signature0 nonce preVer v c mp mf,
    ?_, rfl, rfl, natToBEbytes_length 32 _, natToBEbytes_length 32 _, ?_, ?_, ?_, ?_⟩
  · simp only [build_user_operation, intToBytes, builtUserOp]
    rw [if_pos hb1, if_pos hb2]
  · show fromBEbytes ((natToBEbytes 32 ((v <<< 128) ||| c)).take 16) = v
    rw [hsplit1, List.take_left' (natToBEbytes_length 16 v), hdec1v]
  · show fromBEbytes ((natToBEbytes 32 ((v <<< 128) ||| c)).drop 16) = c
    rw [hsplit1, List.drop_left' (natToBEbytes_length 16 v), hdec1c]
  · show fromBEbytes ((natToBEbytes 32 ((mp <<< 128) ||| mf)).take 16) = mp
    rw [hsplit2, List.take_left' (natToBEbytes_length 16 mp), hdec2v]
  · show fromBEbytes ((natToBEbytes 32 ((mp <<< 128) ||| mf)).drop 16) = mf
    rw [hsplit2, List.drop_left' (natToBEbytes_length 16 mp), hdec2c]

/-- Witness for C5 at the boundary values `2^128 - 1` and `0` and
mid-range fees. -/
theorem packing_correct_witness :
    ∃ op, build_user_operation [] [1] 7 (2 ^ 128 - 1) 5 0 (2 ^ 128 - 1) 21000 [] [] =
        .ok op ∧
      op.accountGasLimits = natToBEbytes 32 (((2 ^ 128 - 1) <<< 128) ||| 0) ∧
      op.gasFees = natToBEbytes 32 ((5 <<< 128) ||| (2 ^ 128 - 1)) ∧
      op.accountGasLimits.length = 32 ∧ op.gasFees.length = 32 ∧
      fromBEbytes (op.accountGasLimits.take 16) = 2 ^ 128 - 1 ∧
      fromBEbytes (op.accountGasLimits.drop 16) = 0 ∧
      fromBEbytes (op.gasFees.take 16) = 5 ∧
      fromBEbytes (op.gasFees.drop 16) = 2 ^ 128 - 1 :=
  packing_correct [] [1] [] [] 7 21000 (2 ^ 128 - 1) 0 5 (2 ^ 128 - 1)
    (by norm_num) (by positivity) (by norm_num) (by norm_num)

/-- C6 (code evaluated at the failing input): the source performs no
128-bit validation.  With `call_gas_limit = 2^128` (and the source's
default `verification_gas_limit = 150000`) the build does *not* fail:
it silently returns a record whose `accountGasLimits` decodes to
`verificationGasLimit = 150001` and `callGasLimit = 0`, corrupting the
packing invariant instead of raising the `InputError` the spec
requires.  A value of `verification_gas_limit ≥ 2^128` instead escapes
as an uncaught `OverflowError` from `int.to_bytes`, not an
`InputError`. -/
theorem builder_no_validation_failing_input :
    (∃ op, build_user_operation [] [] 0 1 1 (2 ^ 128) 150000 21000 [] [] = .ok op ∧
      fromBEbytes (op.accountGasLimits.take 16) = 150001 ∧
      fromBEbytes (op.accountGasLimits.drop 16) = 0) ∧
    build_user_operation [] [] 0 1 1 100000 (2 ^ 128) 21000 [] [] =
      .error .overflowError := by
  constructor
  · refine ⟨_, rfl, ?_, ?_⟩ <;> decide
  · rfl

end NexusWallet
